import Mathlib

/-!
Verification development for the interSeg3D-Studio backend.

The Python sources embedded here are:
  * `src/backend/voxelizer.py` — `maximalRectangle` (largest all-1s rectangle via
    row-wise histogram + monotonic stack) and `find_position` (occupancy-grid
    rasterization of a point cloud and camera placement above the largest free
    rectangle);
  * `src/backend/max_submatrix_getting.py` — the same algorithm on a matrix of
    the strings "1"/"0", returning the area together with the rectangle;
  * `src/backend/view_rendering.py` — geometry loading, mask-mode recoloring,
    object center/bounding-radius computation and camera-position generation
    (`test_camera_positions` / `render_object_views`);
  * `src/backend/app.py` — the upload handler's color filling and the
    `pre_segmentation` endpoint's render path.

Modelling conventions: Python floats are modelled as real numbers (the spec's
claims are stated "within floating-point tolerance" / "under exact arithmetic");
numpy arrays as lists; a raised `ValueError` as `Except.error` carrying the
message string.  Rendering, file I/O and calls into Open3D that do not influence
the claims (offscreen rendering, convex hulls, PLY writing) are not modelled;
the per-camera `look_at` data `(eye, target)` stands for each rendered view.
-/

/-- Message of the `ValueError` raised by `compute_object_center_and_radius`. -/
def errNoMaskedPoints : String := "No masked points found in the geometry."

/-- Message of the `ValueError` raised on a mask/point-count mismatch. -/
def errMaskLength : String := "Mask length does not match number of points in the geometry."

/-- Message of the `ValueError` raised when the mask selects no points. -/
def errNoMaskSelect : String := "The mask did not select any points."

/-- Message of the `ValueError` raised on an unsupported mask mode
(the source text is `mask_mode must be 'outline' or 'full'.`). -/
def errMaskMode : String := "mask_mode must be \x27outline\x27 or \x27full\x27."

/-- Message of the 400 response of the upload handler for an unsupported file
format (the filename interpolation of the f-string is dropped). -/
def errUnsupportedFormat : String := "Unsupported file format"

/-- The string constant "full" (a mask mode). -/
def strFull : String := "full"

/-- The string constant "outline" (a mask mode). -/
def strOutline : String := "outline"

/-! ## The largest-rectangle routine (`voxelizer.py` / `max_submatrix_getting.py`)

State of the Python locals `ans, n1, n2, m1, m2` of `maximalRectangle`.
Python integers are unbounded, hence `ℤ`. -/

structure RectSt where
  ans : ℤ
  n1 : ℤ
  n2 : ℤ
  m1 : ℤ
  m2 : ℤ
deriving Repr, DecidableEq

/-- Python `stack[-1] + 1 if stack else 0` after the pop (the stack is stored
with its top as the list head). -/
def restM1 : List ℕ → ℤ
  | [] => 0
  | t :: _ => (t : ℤ) + 1

/-- Python `w = j if not stack else j - stack[-1] - 1` after the pop. -/
def restW (j : ℕ) : List ℕ → ℤ
  | [] => (j : ℤ)
  | t :: _ => (j : ℤ) - (t : ℤ) - 1

/-- The candidate rectangle recorded when index `t` is popped at column `j`
while the remaining stack is `rest`: `ans = h*w`, rows `i .. i+h-1`, columns
`m1 .. j-1` (fields in the order of `RectSt`). -/
def candAt (heights : List ℤ) (i j : ℕ) (t : ℕ) (rest : List ℕ) : RectSt :=
  ⟨heights.getD t 0 * restW j rest, (i : ℤ), (i : ℤ) + heights.getD t 0 - 1,
    restM1 rest, (j : ℤ) - 1⟩

/-- The inner `while stack and (j == m or heights[stack[-1]] > heights[j])`
loop: pop, possibly update the best rectangle (strict improvement only), and
continue.  `heights.getD j 0` is only consulted when `j ≠ m`, matching the
short-circuit of the Python `or`. -/
def popLoop (heights : List ℤ) (i j m : ℕ) : List ℕ → RectSt → List ℕ × RectSt
  | [], st => ([], st)
  | t :: rest, st =>
    if j = m ∨ heights.getD t 0 > heights.getD j 0 then
      let cand := candAt heights i j t rest
      popLoop heights i j m rest (if cand.ans > st.ans then cand else st)
    else (t :: rest, st)

/-- One iteration of `for j in range(m + 1)`: run the pop loop, then
`stack.append(j)`. -/
def jStep (heights : List ℤ) (i m : ℕ) (acc : List ℕ × RectSt) (j : ℕ) :
    List ℕ × RectSt :=
  let p := popLoop heights i j m acc.1 acc.2
  (j :: p.1, p.2)

/-- The whole per-row stack pass `for j in range(m + 1): ...` starting from an
empty stack (`stack = []` is re-created for every row in the source). -/
def stackPass (heights : List ℤ) (i m : ℕ) (st : RectSt) : RectSt :=
  ((List.range (m + 1)).foldl (jStep heights i m) ([], st)).2

/-- The per-row histogram update `heights[j] = heights[j] + 1 if one else 0`,
generic in the entry test (`== 1` for `voxelizer.py`, `== '1'` for
`max_submatrix_getting.py`). -/
def updateHeights (isOne : α → Bool) (row : List α) (heights : List ℤ) : List ℤ :=
  List.zipWith (fun a h => if isOne a then h + 1 else 0) row heights

/-- One iteration of the outer `for i in range(n-1, -1, -1)` loop, carrying
`(heights, best)`; `p` is the pair (row index, row). -/
def rowStep (isOne : α → Bool) (m : ℕ) (acc : List ℤ × RectSt) (p : ℕ × List α) :
    List ℤ × RectSt :=
  let heights := updateHeights isOne p.2 acc.1
  (heights, stackPass heights p.1 m acc.2)

/-- The full algorithm: rows are visited bottom-up (`range(n-1, -1, -1)`),
`heights` starts as `[0] * m` with `m = len(matrix[0])`, and the best state
starts as `ans = n1 = n2 = m1 = m2 = 0`. -/
def maximalRectangleCore (isOne : α → Bool) (matrix : List (List α)) : RectSt :=
  let m := (matrix.headD []).length
  (matrix.enum.reverse.foldl (rowStep isOne m) (List.replicate m 0, ⟨0, 0, 0, 0, 0⟩)).2

/-- `voxelizer.maximalRectangle`: integer entries compared with `== 1`; returns
only the rectangle `(n1, n2, m1, m2)`. -/
def maximalRectangle (matrix : List (List ℤ)) : ℤ × ℤ × ℤ × ℤ :=
  let st := maximalRectangleCore (fun a => a == 1) matrix
  (st.n1, st.n2, st.m1, st.m2)

/-- `max_submatrix_getting.maximalRectangle`: string entries compared with
`== '1'`; returns `(ans, (n1, n2, m1, m2))`. -/
def maximalRectangleMS (matrix : List (List String)) : ℤ × (ℤ × ℤ × ℤ × ℤ) :=
  let st := maximalRectangleCore (fun a => a == "1") matrix
  (st.ans, (st.n1, st.n2, st.m1, st.m2))

/-- A uniform `R × C` grid all of whose entries are `x`. -/
def uniformGrid (x : α) (R C : ℕ) : List (List α) :=
  List.replicate R (List.replicate C x)

/-- An `R × C` grid of `one` entries except for a single `zero` entry at row
`r`, column `c`. -/
def holeGrid (one zero : α) (R C r c : ℕ) : List (List α) :=
  (List.range R).map fun i =>
    if i = r then (List.replicate C one).set c zero else List.replicate C one

/-- The rectangle reported in `st` contains the cell `(r, c)`. -/
def rectContains (st : RectSt) (r c : ℕ) : Prop :=
  st.n1 ≤ (r : ℤ) ∧ (r : ℤ) ≤ st.n2 ∧ st.m1 ≤ (c : ℤ) ∧ (c : ℤ) ≤ st.m2

instance (st : RectSt) (r c : ℕ) : Decidable (rectContains st r c) := by
  unfold rectContains; infer_instance

/-! ## Geometry model (`view_rendering.py`, `app.py`, `voxelizer.find_position`)

Python floats are modelled as real numbers, 3-vectors (coordinates and RGB
colors alike, both `(n, 3)` float arrays in the source) as `Vec3`. -/

@[ext]
structure Vec3 where
  x : ℝ
  y : ℝ
  z : ℝ

/-- `np.mean(l, axis=0)` (componentwise mean; the empty case, `nan` in numpy,
falls to the junk value `0/0 = 0`). -/
noncomputable def vmean (l : List Vec3) : Vec3 :=
  ⟨(l.map Vec3.x).sum / l.length, (l.map Vec3.y).sum / l.length,
    (l.map Vec3.z).sum / l.length⟩

/-- `np.linalg.norm` of a 3-vector. -/
noncomputable def vnorm (v : Vec3) : ℝ :=
  Real.sqrt (v.x ^ 2 + v.y ^ 2 + v.z ^ 2)

/-- Euclidean distance between two points. -/
noncomputable def dist3 (p q : Vec3) : ℝ :=
  vnorm ⟨p.x - q.x, p.y - q.y, p.z - q.z⟩

/-- Horizontal (xy-plane) distance between two points. -/
noncomputable def distXY (p q : Vec3) : ℝ :=
  Real.sqrt ((p.x - q.x) ^ 2 + (p.y - q.y) ^ 2)

/-- `np.min` of a nonempty float array (`0` is a junk value for the empty
array, on which numpy raises). -/
noncomputable def listMin (l : List ℝ) : ℝ :=
  match l with
  | [] => 0
  | v :: t => t.foldl min v

/-- `np.max` of a nonempty float array (`0` is a junk value for the empty
array, on which numpy raises). -/
noncomputable def listMax (l : List ℝ) : ℝ :=
  match l with
  | [] => 0
  | v :: t => t.foldl max v

/-- Numpy boolean indexing `coords[mask]`. -/
def maskedCoords (maskB : List Bool) (coords : List Vec3) : List Vec3 :=
  ((maskB.zip coords).filter fun p => p.1).map fun p => p.2

/-- Numpy boolean assignment `updated_colors[mask] = highlight_color` on a copy
of `colors` (the callers guarantee `len(mask) == len(colors)`, under which
`zipWith` is the exact semantics). -/
def maskAssign (maskB : List Bool) (colors : List Vec3) (hl : Vec3) : List Vec3 :=
  List.zipWith (fun b col => if b then hl else col) maskB colors

/-- `process_mask_mode(mask, coords, colors, mask_mode, highlight_color)`.
Returns the updated color array; the convex-hull `LineSet` produced in
"outline" mode is an Open3D object outside the model (the colors are returned
unchanged in that branch).  In "outline" mode an empty mask raises before the
hull is computed; an unknown mode raises. -/
def process_mask_mode (maskB : List Bool) (coords colors : List Vec3)
    (mask_mode : String) (hl : Vec3) : Except String (List Vec3) :=
  if mask_mode = "full" then .ok (maskAssign maskB colors hl)
  else if mask_mode = "outline" then
    if maskB.any id then .ok colors else .error errNoMaskSelect
  else .error errMaskMode

/-- `compute_object_center_and_radius(mask, coords)`: raises when the mask
selects nothing, otherwise the mean of the masked points and the maximum
distance from that mean (`np.max` over the nonnegative norms is modelled as
`foldr max 0`, which agrees with it on nonempty lists of nonnegatives). -/
noncomputable def compute_object_center_and_radius (maskB : List Bool)
    (coords : List Vec3) : Except String (Vec3 × ℝ) :=
  if maskB.any id then
    let mc := maskedCoords maskB coords
    let center := vmean mc
    let br := (mc.map fun p =>
      vnorm ⟨p.x - center.x, p.y - center.y, p.z - center.z⟩).foldr max 0
    .ok (center, br)
  else .error errNoMaskedPoints

/-- `render_object_views(...)`: validates the mask length, processes the mask
mode, re-checks that the mask selects points, and renders one view per camera
position.  The model returns the visualization colors together with the
`(eye, target)` pair of each rendered view: `target = 2*eye - scene_center`
in outward mode, else the masked object's center.  Directory creation,
geometry re-loading and the offscreen renderer are side effects outside the
model (the colors passed in stand for the file's colors). -/
noncomputable def render_object_views (coords colors : List Vec3)
    (maskB : List Bool) (camera_pos : List Vec3) (mask_mode : String)
    (hl : Vec3) (look_outward : Bool) (scene_center : Vec3) :
    Except String (List Vec3 × List (Vec3 × Vec3)) :=
  if maskB.length ≠ coords.length then .error errMaskLength
  else
    match process_mask_mode maskB coords colors mask_mode hl with
    | .error e => .error e
    | .ok vis_colors =>
      if maskB.any id then
        let object_center := vmean (maskedCoords maskB coords)
        let views := camera_pos.map fun eye =>
          if look_outward then
            (eye, (⟨2 * eye.x - scene_center.x, 2 * eye.y - scene_center.y,
              2 * eye.z - scene_center.z⟩ : Vec3))
          else (eye, object_center)
        .ok (vis_colors, views)
      else .error errNoMaskSelect

/-- The camera-position generation loop of `test_camera_positions`:
`n` positions on the circle of the given radius around `(center.x, center.y)`
at height `h`, at angles `2*pi*i/n`. -/
noncomputable def camera_positions_list (center : Vec3) (radius h : ℝ) (n : ℕ) :
    List Vec3 :=
  (List.range n).map fun i : ℕ =>
    ⟨center.x + radius * Real.cos (2 * Real.pi * (i : ℝ) / (n : ℝ)),
      center.y + radius * Real.sin (2 * Real.pi * (i : ℝ) / (n : ℝ)), h⟩

/-- The horizontal field of view computed in the outward branch of
`test_camera_positions`: the vertical FOV is overridden to 90 degrees and the
aspect ratio is the hard-coded `1280 / 720`; converted back to degrees. -/
noncomputable def outward_horizontal_fov : ℝ :=
  2 * Real.arctan (Real.tan ((90 : ℝ) * Real.pi / 180 / 2) * (1280 / 720))
    * 180 / Real.pi

/-- `num_positions = int(np.ceil(360 / effective_fov))` in the outward branch,
with `effective_fov = horizontal_fov * (1 - overlap_ratio)`. -/
noncomputable def outward_num_positions (rho : ℝ) : ℕ :=
  (⌈(360 : ℝ) / (outward_horizontal_fov * (1 - rho))⌉).toNat

/-- `compute_cloud_center(coords)`: the componentwise mean. -/
noncomputable def compute_cloud_center (coords : List Vec3) : Vec3 :=
  vmean coords

/-- `test_camera_positions(...)`.  The mask (an integer array) is compared to
`obj_id` elementwise; after the length check and `process_mask_mode`, the
outward branch overrides center/radius/`distance_factor`/`num_positions`
while the object branch calls `compute_object_center_and_radius` (which can
raise); the camera height defaults to `min z + 1.5`; positions are generated
on a circle and handed to `render_object_views` (which re-loads the same
file and uses its own default highlight color `[1,0,0]`).  Camera-marker
creation and the PLY dump are side effects outside the model. -/
noncomputable def test_camera_positions (coords colors : List Vec3)
    (mask : List ℤ) (distance_factor : ℝ) (num_positions : ℕ)
    (camera_height : Option ℝ) (mask_mode : String) (hl : Vec3) (obj_id : ℤ)
    (look_outward : Bool) (rho : ℝ) :
    Except String (List Vec3 × List (Vec3 × Vec3)) :=
  let obj_mask := mask.map fun v => v == obj_id
  if obj_mask.length ≠ coords.length then .error errMaskLength
  else
    match process_mask_mode obj_mask coords colors mask_mode hl with
    | .error e => .error e
    | .ok _vis_colors =>
      let branch : Except String (Vec3 × ℝ × ℝ × ℕ) :=
        if look_outward then
          .ok (compute_cloud_center coords, 0.5, 0.1, outward_num_positions rho)
        else
          match compute_object_center_and_radius obj_mask coords with
          | .error e => .error e
          | .ok p => .ok (p.1, p.2, distance_factor, num_positions)
      match branch with
      | .error e => .error e
      | .ok (center, bounding_radius, df, np_) =>
        let h := camera_height.getD (listMin (coords.map Vec3.z) + 1.5)
        let cam_positions := camera_positions_list center (bounding_radius * df) h np_
        let scene_center : Vec3 := ⟨center.x, center.y, h⟩
        render_object_views coords colors obj_mask cam_positions mask_mode
          ⟨1, 0, 0⟩ look_outward scene_center

/-- The render path of the `pre_segmentation` endpoint (`app.py`): the height
is `(2*max_z + min_z)/3` and `test_camera_positions` is called with an
all-zero dummy mask, `obj_id = 1`, `mask_mode = "full"`, `look_outward=True`
and `overlap_ratio = 0.2`. -/
noncomputable def pre_segmentation_render (coords colors : List Vec3) :
    Except String (List Vec3 × List (Vec3 × Vec3)) :=
  let zs := coords.map Vec3.z
  let height := (listMax zs * 2 + listMin zs) / 3
  test_camera_positions coords colors (List.replicate coords.length 0) 2 8
    (some height) strFull ⟨1, 0, 0⟩ 1 true 0.2

/-! ## Geometry loading (`load_geometry_from_file`, upload handler) -/

/-- An Open3D geometry as far as the model needs it: its point (or vertex)
array and its color array (empty when the geometry carries no colors —
`has_colors()` / `has_vertex_colors()` test exactly for nonemptiness). -/
structure O3DGeom where
  points : List Vec3
  colors : List Vec3

/-- Open3D's `has_colors()` / `has_vertex_colors()`. -/
def o3dHasColors (g : O3DGeom) : Bool :=
  g.colors.length != 0

/-- `load_geometry_from_file(file_path, background_color)`: both the mesh
branch (`vertices` / `vertex_colors`) and the point-cloud branch (`points` /
`colors`) take the file's colors when present and otherwise tile the
background color once per coordinate (`np.tile(background_color, (len(coords), 1))`). -/
noncomputable def load_geometry_from_file (containsTriangles : Bool)
    (g : O3DGeom) (bg : Vec3) : String × List Vec3 × List Vec3 :=
  if containsTriangles then
    ("mesh", g.points,
      if o3dHasColors g then g.colors else List.replicate g.points.length bg)
  else
    ("pointcloud", g.points,
      if o3dHasColors g then g.colors else List.replicate g.points.length bg)

/-- The three possible results of `o3d.io.read_file_geometry_type` as the
upload handler distinguishes them. -/
inductive FileGeometryKind
  | triangles
  | points
  | other

/-- The geometry-loading part of the `upload_point_cloud` handler (`app.py`):
meshes and point clouds fill missing colors with `np.ones((n,3)) * 0.5`;
any other file kind is answered with a 400 error. -/
noncomputable def upload_point_cloud (kind : FileGeometryKind) (g : O3DGeom) :
    Except String (List Vec3 × List Vec3) :=
  match kind with
  | .triangles =>
    .ok (g.points,
      if o3dHasColors g then g.colors
      else List.replicate g.points.length ⟨0.5, 0.5, 0.5⟩)
  | .points =>
    .ok (g.points,
      if o3dHasColors g then g.colors
      else List.replicate g.points.length ⟨0.5, 0.5, 0.5⟩)
  | .other => .error errUnsupportedFormat

/-! ## `find_position` rasterization (`voxelizer.py`) -/

/-- The grid dimension `SIZE = 1024` of `voxelizer.py`. -/
def SIZE : ℕ := 1024

/-- Python `int()` applied to a float: truncation toward zero. -/
noncomputable def pyInt (x : ℝ) : ℤ :=
  if 0 ≤ x then ⌊x⌋ else -⌊-x⌋

/-- A cell width of `find_position`: `(max - min) / SIZE` on one axis. -/
noncomputable def fp_grid (cmin cmax : ℝ) : ℝ :=
  (cmax - cmin) / SIZE

/-- The cell index `int((coord - min) / grid)` computed by `find_position`. -/
noncomputable def fp_index (cmin cmax v : ℝ) : ℤ :=
  pyInt ((v - cmin) / fp_grid cmin cmax)

/-- The x-axis cell index `find_position` computes for point `p` of `coords`. -/
noncomputable def find_position_xIndex (coords : List Vec3) (p : Vec3) : ℤ :=
  fp_index (listMin (coords.map Vec3.x)) (listMax (coords.map Vec3.x)) p.x

/-- The y-axis cell index `find_position` computes for point `p` of `coords`. -/
noncomputable def find_position_yIndex (coords : List Vec3) (p : Vec3) : ℤ :=
  fp_index (listMin (coords.map Vec3.y)) (listMax (coords.map Vec3.y)) p.y

/-- The height band of `find_position`: the point is rasterized (not skipped
by the `continue`) iff `height - grid_z/2 ≤ z ≤ height + grid_z/2`. -/
noncomputable def inHeightBand (coords : List Vec3) (height : ℝ) (p : Vec3) :
    Prop :=
  let zs := coords.map Vec3.z
  let grid_z := fp_grid (listMin zs) (listMax zs)
  height - grid_z / 2 ≤ p.z ∧ p.z ≤ height + grid_z / 2

/-- The occupancy matrix of `find_position` before any update:
`[[1]*SIZE]*SIZE` (as built by the list comprehension). -/
def fp_matrix : List (List ℕ) :=
  List.replicate SIZE (List.replicate SIZE 1)

/-! ## Easy pipeline claims -/

/-- C3: with `mask_mode = "full"` and a mask of the colors' length,
`process_mask_mode` succeeds and returns a colors array whose masked indices
hold exactly the highlight color while non-masked indices keep their original
color (the source works on `colors.copy()`, so the model is a pure function of
the input array). -/
theorem process_full_recolor_spec (maskB : List Bool) (coords colors : List Vec3)
    (hl : Vec3) (hlen : maskB.length = colors.length) :
    ∃ out, process_mask_mode maskB coords colors strFull hl = .ok out ∧
      out.length = colors.length ∧
      ∀ i, ∀ _h1 : i < maskB.length, ∀ h2 : i < colors.length, ∀ h3 : i < out.length,
        out[i] = if maskB[i] then hl else colors[i] := by
  refine ⟨maskAssign maskB colors hl, ?_, ?_, ?_⟩
  · simp [process_mask_mode, strFull]
  · simp [maskAssign, hlen]
  · intro i h1 h2 h3
    simp [maskAssign]

/-- Witness for `process_full_recolor_spec` at a concrete input. -/
theorem process_full_recolor_spec_witness :
    ([true, false].length = [(⟨1, 2, 3⟩ : Vec3), ⟨4, 5, 6⟩].length) ∧
      (∃ out,
        process_mask_mode [true, false] [] [(⟨1, 2, 3⟩ : Vec3), ⟨4, 5, 6⟩]
          strFull ⟨9, 9, 9⟩ = .ok out ∧
        out.length = [(⟨1, 2, 3⟩ : Vec3), ⟨4, 5, 6⟩].length ∧
        ∀ i, ∀ _h1 : i < [true, false].length,
          ∀ h2 : i < [(⟨1, 2, 3⟩ : Vec3), ⟨4, 5, 6⟩].length,
          ∀ h3 : i < out.length,
          out[i] = if [true, false][i] then (⟨9, 9, 9⟩ : Vec3)
            else [(⟨1, 2, 3⟩ : Vec3), ⟨4, 5, 6⟩][i]) :=
  ⟨by simp, process_full_recolor_spec [true, false] [] [⟨1, 2, 3⟩, ⟨4, 5, 6⟩]
    ⟨9, 9, 9⟩ (by simp)⟩

/-- C7: `process_mask_mode` raises the unsupported-mode `ValueError` for every
mode other than "outline" and "full", and never raises that particular error
for the two supported modes. -/
theorem process_mode_validation_spec (maskB : List Bool) (coords colors : List Vec3)
    (hl : Vec3) (mode : String) (h1 : mode ≠ strFull) (h2 : mode ≠ strOutline) :
    process_mask_mode maskB coords colors mode hl = .error errMaskMode ∧
    process_mask_mode maskB coords colors strFull hl ≠ .error errMaskMode ∧
    process_mask_mode maskB coords colors strOutline hl ≠ .error errMaskMode := by
  refine ⟨?_, ?_, ?_⟩
  · simp only [strFull, strOutline] at h1 h2
    simp [process_mask_mode, h1, h2]
  · simp [process_mask_mode, strFull]
  · by_cases hany : maskB.any id
    · simp [process_mask_mode, strFull, strOutline, hany]
    · simp only [process_mask_mode, strFull, strOutline, if_neg, hany]
      simp only [reduceIte, Bool.false_eq_true]
      intro hc
      have : errNoMaskSelect = errMaskMode := by
        simpa using hc
      exact absurd this (by decide)

/-- Witness for `process_mode_validation_spec` at a concrete input. -/
theorem process_mode_validation_spec_witness :
    (("bogus" : String) ≠ strFull ∧ ("bogus" : String) ≠ strOutline) ∧
      (process_mask_mode [true] [] [⟨0, 0, 0⟩] "bogus" ⟨1, 0, 0⟩ =
          .error errMaskMode ∧
        process_mask_mode [true] [] [⟨0, 0, 0⟩] strFull ⟨1, 0, 0⟩ ≠
          .error errMaskMode ∧
        process_mask_mode [true] [] [⟨0, 0, 0⟩] strOutline ⟨1, 0, 0⟩ ≠
          .error errMaskMode) :=
  ⟨⟨by decide, by decide⟩,
    process_mode_validation_spec [true] [] [⟨0, 0, 0⟩] ⟨1, 0, 0⟩ "bogus"
      (by decide) (by decide)⟩

/-- C6: a mask whose length differs from the point count makes both
`render_object_views` and `test_camera_positions` raise the mask-length
`ValueError`; the check precedes `process_mask_mode`, so no colors are
computed (in the model the error short-circuits the pipeline). -/
theorem mask_length_mismatch_spec (coords colors : List Vec3) (maskB : List Bool)
    (camera_pos : List Vec3) (mode : String) (hl : Vec3) (lo : Bool) (sc : Vec3)
    (mask : List ℤ) (df : ℝ) (N : ℕ) (ch : Option ℝ) (obj_id : ℤ) (rho : ℝ)
    (hB : maskB.length ≠ coords.length) (hZ : mask.length ≠ coords.length) :
    render_object_views coords colors maskB camera_pos mode hl lo sc =
        .error errMaskLength ∧
    test_camera_positions coords colors mask df N ch mode hl obj_id lo rho =
        .error errMaskLength := by
  constructor
  · simp [render_object_views, hB]
  · simp [test_camera_positions, hZ]

/-- Witness for `mask_length_mismatch_spec` at a concrete input. -/
theorem mask_length_mismatch_spec_witness :
    (([true, true] : List Bool).length ≠ ([⟨0, 0, 0⟩] : List Vec3).length ∧
        ([2, 2] : List ℤ).length ≠ ([⟨0, 0, 0⟩] : List Vec3).length) ∧
      (render_object_views [⟨0, 0, 0⟩] [⟨0, 0, 0⟩] [true, true] [] strFull
          ⟨1, 0, 0⟩ false ⟨0, 0, 0⟩ = .error errMaskLength ∧
        test_camera_positions [⟨0, 0, 0⟩] [⟨0, 0, 0⟩] [2, 2] 2 8 none strFull
          ⟨1, 0, 0⟩ 1 false 0.2 = .error errMaskLength) :=
  ⟨⟨by decide, by decide⟩,
    mask_length_mismatch_spec [⟨0, 0, 0⟩] [⟨0, 0, 0⟩] [true, true] [] strFull
      ⟨1, 0, 0⟩ false ⟨0, 0, 0⟩ [2, 2] 2 8 none 1 0.2 (by decide) (by decide)⟩

/-- C8: after a successful load, coordinates and colors have the same count,
both in `load_geometry_from_file` (either branch, colors from the file or the
tiled background color) and in the upload handler; the hypothesis is Open3D's
contract that a geometry's color array is either absent or one color per
point. -/
theorem load_colors_length_spec (ct : Bool) (kind : FileGeometryKind)
    (g : O3DGeom) (bg : Vec3)
    (hvalid : g.colors.length = 0 ∨ g.colors.length = g.points.length) :
    (load_geometry_from_file ct g bg).2.1.length =
        (load_geometry_from_file ct g bg).2.2.length ∧
    ∀ res, upload_point_cloud kind g = .ok res → res.1.length = res.2.length := by
  have hcol : (if o3dHasColors g then g.colors
      else List.replicate g.points.length bg).length = g.points.length := by
    by_cases h : o3dHasColors g
    · rcases hvalid with h0 | he
      · simp [o3dHasColors, h0] at h
      · simp [h, he]
    · simp [h]
  have hcol2 : (if o3dHasColors g then g.colors
      else List.replicate g.points.length (⟨0.5, 0.5, 0.5⟩ : Vec3)).length =
      g.points.length := by
    by_cases h : o3dHasColors g
    · rcases hvalid with h0 | he
      · simp [o3dHasColors, h0] at h
      · simp [h, he]
    · simp [h]
  constructor
  · cases ct <;> simp [load_geometry_from_file, hcol]
  · intro res hres
    cases kind <;> simp [upload_point_cloud] at hres <;>
      simp [← hres, hcol2]

/-- Witness for `load_colors_length_spec` at a concrete input (a two-point
geometry without colors). -/
theorem load_colors_length_spec_witness :
    ((⟨[⟨0, 0, 0⟩, ⟨1, 1, 1⟩], []⟩ : O3DGeom).colors.length = 0 ∨
        (⟨[⟨0, 0, 0⟩, ⟨1, 1, 1⟩], []⟩ : O3DGeom).colors.length =
          (⟨[⟨0, 0, 0⟩, ⟨1, 1, 1⟩], []⟩ : O3DGeom).points.length) ∧
      ((load_geometry_from_file true ⟨[⟨0, 0, 0⟩, ⟨1, 1, 1⟩], []⟩
            ⟨0.5, 0.5, 0.5⟩).2.1.length =
          (load_geometry_from_file true ⟨[⟨0, 0, 0⟩, ⟨1, 1, 1⟩], []⟩
            ⟨0.5, 0.5, 0.5⟩).2.2.length ∧
        ∀ res, upload_point_cloud .points ⟨[⟨0, 0, 0⟩, ⟨1, 1, 1⟩], []⟩ = .ok res →
          res.1.length = res.2.length) :=
  ⟨Or.inl rfl,
    load_colors_length_spec true .points ⟨[⟨0, 0, 0⟩, ⟨1, 1, 1⟩], []⟩
      ⟨0.5, 0.5, 0.5⟩ (Or.inl rfl)⟩

/-- Helper: with a supported mask mode, a matching length, and a mask that
selects nothing, `render_object_views` raises the empty-selection error
(in "outline" mode inside `process_mask_mode`, in "full" mode at the check
just before the camera loop — the same message in both cases). -/
theorem render_err_of_empty_mask (coords colors : List Vec3) (maskB : List Bool)
    (camera_pos : List Vec3) (mode : String) (hl : Vec3) (lo : Bool) (sc : Vec3)
    (hmode : mode = strOutline ∨ mode = strFull)
    (hfalse : maskB.any id = false) (hlen : maskB.length = coords.length) :
    render_object_views coords colors maskB camera_pos mode hl lo sc =
      .error errNoMaskSelect := by
  rcases hmode with h | h <;> subst h <;>
    simp [render_object_views, process_mask_mode, strOutline, strFull, hfalse, hlen]

/-- C9: `render_object_views` raises the empty-selection `ValueError` for every
all-false mask of matching length, in both supported mask modes (including
"full") and for either `look_outward` setting; consequently the
`pre_segmentation` render path, which passes an all-zero dummy mask with
`obj_id = 1` in outward "full" mode, always ends in this error. -/
theorem render_empty_mask_spec (coords colors : List Vec3) (maskB : List Bool)
    (camera_pos : List Vec3) (hl : Vec3) (mode : String) (lo : Bool) (sc : Vec3)
    (hmode : mode = strOutline ∨ mode = strFull)
    (hfalse : maskB.any id = false) (hlen : maskB.length = coords.length) :
    render_object_views coords colors maskB camera_pos mode hl lo sc =
        .error errNoMaskSelect ∧
    ∀ coords2 colors2 : List Vec3, coords2 ≠ [] →
      pre_segmentation_render coords2 colors2 = .error errNoMaskSelect := by
  constructor
  · exact render_err_of_empty_mask coords colors maskB camera_pos mode hl lo sc
      hmode hfalse hlen
  · intro coords2 colors2 _hne
    have hmask : ((List.replicate coords2.length (0 : ℤ)).map fun v => v == 1) =
        List.replicate coords2.length false := by
      simp
    have hfalse2 : (List.replicate coords2.length false).any id = false := by
      simp
    simp only [pre_segmentation_render, test_camera_positions, hmask]
    rw [if_neg (by simp)]
    simp only [process_mask_mode, strFull, reduceIte, hfalse2]
    exact render_err_of_empty_mask _ _ _ _ _ _ _ _ (Or.inr rfl) hfalse2 (by simp)

/-- Witness for `render_empty_mask_spec` at a concrete input. -/
theorem render_empty_mask_spec_witness :
    ((strFull = strOutline ∨ strFull = strFull) ∧
        ([false] : List Bool).any id = false ∧
        ([false] : List Bool).length = ([⟨0, 0, 0⟩] : List Vec3).length) ∧
      (render_object_views [⟨0, 0, 0⟩] [⟨0.5, 0.5, 0.5⟩] [false] [] strFull
          ⟨1, 0, 0⟩ true ⟨0, 0, 0⟩ = .error errNoMaskSelect ∧
        ∀ coords2 colors2 : List Vec3, coords2 ≠ [] →
          pre_segmentation_render coords2 colors2 = .error errNoMaskSelect) :=
  ⟨⟨Or.inr rfl, by decide, by decide⟩,
    render_empty_mask_spec [⟨0, 0, 0⟩] [⟨0.5, 0.5, 0.5⟩] [false] [] ⟨1, 0, 0⟩
      strFull true ⟨0, 0, 0⟩ (Or.inr rfl) (by decide) (by decide)⟩

/-- C5: whenever the object mask (`mask == obj_id`) selects zero points,
`test_camera_positions` raises a `ValueError` — on every path (any mask mode,
either `look_outward` setting, matching length or not) — and
`compute_object_center_and_radius` in particular raises its
"No masked points found in the geometry." error. -/
theorem camera_empty_mask_spec (coords colors : List Vec3) (mask : List ℤ)
    (df : ℝ) (N : ℕ) (ch : Option ℝ) (mode : String) (hl : Vec3) (obj_id : ℤ)
    (lo : Bool) (rho : ℝ)
    (hfalse : (mask.map fun v => v == obj_id).any id = false) :
    (∃ e, test_camera_positions coords colors mask df N ch mode hl obj_id lo rho =
        .error e) ∧
    compute_object_center_and_radius (mask.map fun v => v == obj_id) coords =
        .error errNoMaskedPoints := by
  refine ⟨?_, by simp [compute_object_center_and_radius, hfalse]⟩
  by_cases hlen : (mask.map fun v => v == obj_id).length = coords.length
  · by_cases hf : mode = strFull
    · subst hf
      cases lo
      · refine ⟨errNoMaskedPoints, ?_⟩
        simp [test_camera_positions, hlen, process_mask_mode, strFull,
          compute_object_center_and_radius, hfalse]
      · refine ⟨errNoMaskSelect, ?_⟩
        simp only [test_camera_positions]
        rw [if_neg (by simp [hlen])]
        simp only [process_mask_mode, strFull, reduceIte]
        exact render_err_of_empty_mask _ _ _ _ _ _ _ _ (Or.inr rfl) hfalse hlen
    · by_cases ho : mode = strOutline
      · subst ho
        refine ⟨errNoMaskSelect, ?_⟩
        simp [test_camera_positions, hlen, process_mask_mode, strOutline, hfalse]
      · refine ⟨errMaskMode, ?_⟩
        simp only [strFull] at hf
        simp only [strOutline] at ho
        simp [test_camera_positions, hlen, process_mask_mode, hf, ho]
  · have hlen' : ¬mask.length = coords.length := by simpa using hlen
    exact ⟨errMaskLength, by simp [test_camera_positions, hlen']⟩

/-- Witness for `camera_empty_mask_spec` at a concrete input. -/
theorem camera_empty_mask_spec_witness :
    (([0, 2] : List ℤ).map fun v => v == 1).any id = false ∧
      ((∃ e, test_camera_positions [⟨0, 0, 0⟩, ⟨1, 1, 1⟩] [⟨0, 0, 0⟩, ⟨1, 1, 1⟩]
            [0, 2] 2 8 none strFull ⟨1, 0, 0⟩ 1 false 0.2 = .error e) ∧
        compute_object_center_and_radius (([0, 2] : List ℤ).map fun v => v == 1)
            [⟨0, 0, 0⟩, ⟨1, 1, 1⟩] = .error errNoMaskedPoints) :=
  ⟨by decide,
    camera_empty_mask_spec [⟨0, 0, 0⟩, ⟨1, 1, 1⟩] [⟨0, 0, 0⟩, ⟨1, 1, 1⟩] [0, 2]
      2 8 none strFull ⟨1, 0, 0⟩ 1 false 0.2 (by decide)⟩

/-- Helper: under exact arithmetic, the cell index of a coordinate equal to
the axis maximum is exactly `SIZE`. -/
theorem fp_index_at_max (cmin cmax : ℝ) (hlt : cmin < cmax) :
    fp_index cmin cmax cmax = (SIZE : ℤ) := by
  have hne : cmax - cmin ≠ 0 := sub_ne_zero.mpr hlt.ne'
  have hq : (cmax - cmin) / fp_grid cmin cmax = (SIZE : ℝ) := by
    rw [fp_grid, div_div_eq_mul_div, mul_comm, mul_div_assoc, div_self hne,
      mul_one]
  have hnn : (0 : ℝ) ≤ (cmax - cmin) / fp_grid cmin cmax := by
    rw [hq]; positivity
  rw [fp_index, pyInt, if_pos hnn, hq]
  rw [show ((SIZE : ℕ) : ℝ) = ((SIZE : ℤ) : ℝ) by push_cast; ring]
  exact Int.floor_intCast _

/-- C10: `find_position`'s rasterization is not total — a point whose x (resp.
y) coordinate equals the cloud's maximum on that axis and whose z lies in the
height band gets, under exact arithmetic, cell index `SIZE = 1024`, outside
the `SIZE × SIZE` occupancy matrix `matrix[x][y]` (rows and inner rows have
`SIZE` entries, valid indices `0 .. 1023`), provided the axis is nondegenerate
(`min < max`; otherwise the division is by zero). -/
theorem find_position_oob_spec (coords : List Vec3) (p : Vec3) (height : ℝ)
    (hp : p ∈ coords) (hband : inHeightBand coords height p) :
    (p.x = listMax (coords.map Vec3.x) →
      listMin (coords.map Vec3.x) < listMax (coords.map Vec3.x) →
      find_position_xIndex coords p = (SIZE : ℤ) ∧
        ¬ find_position_xIndex coords p < (fp_matrix.length : ℤ)) ∧
    (p.y = listMax (coords.map Vec3.y) →
      listMin (coords.map Vec3.y) < listMax (coords.map Vec3.y) →
      find_position_yIndex coords p = (SIZE : ℤ) ∧
        ¬ find_position_yIndex coords p < ((fp_matrix.headD []).length : ℤ)) := by
  have hlen : fp_matrix.length = SIZE := by simp [fp_matrix]
  have hhead : fp_matrix.headD [] = List.replicate SIZE 1 := rfl
  have hlen2 : (fp_matrix.headD []).length = SIZE := by
    rw [hhead, List.length_replicate]
  constructor
  · intro hmax hlt
    have h1 : find_position_xIndex coords p = (SIZE : ℤ) := by
      rw [find_position_xIndex, hmax]
      exact fp_index_at_max _ _ hlt
    exact ⟨h1, by rw [h1, hlen]; omega⟩
  · intro hmax hlt
    have h1 : find_position_yIndex coords p = (SIZE : ℤ) := by
      rw [find_position_yIndex, hmax]
      exact fp_index_at_max _ _ hlt
    exact ⟨h1, by rw [h1, hlen2]; omega⟩

/-- Witness for `find_position_oob_spec`: the two-point cloud
`[(0,0,0), (1,1,1)]` with `height = 1`; the point `(1,1,1)` attains the x and
y maxima and lies inside the height band. -/
theorem find_position_oob_spec_witness :
    ((⟨1, 1, 1⟩ : Vec3) ∈ ([⟨0, 0, 0⟩, ⟨1, 1, 1⟩] : List Vec3) ∧
        inHeightBand [⟨0, 0, 0⟩, ⟨1, 1, 1⟩] 1 ⟨1, 1, 1⟩ ∧
        (⟨1, 1, 1⟩ : Vec3).x = listMax (([⟨0, 0, 0⟩, ⟨1, 1, 1⟩] : List Vec3).map Vec3.x) ∧
        listMin (([⟨0, 0, 0⟩, ⟨1, 1, 1⟩] : List Vec3).map Vec3.x) <
          listMax (([⟨0, 0, 0⟩, ⟨1, 1, 1⟩] : List Vec3).map Vec3.x)) ∧
      (find_position_xIndex [⟨0, 0, 0⟩, ⟨1, 1, 1⟩] ⟨1, 1, 1⟩ = (SIZE : ℤ) ∧
        ¬ find_position_xIndex [⟨0, 0, 0⟩, ⟨1, 1, 1⟩] ⟨1, 1, 1⟩ <
          (fp_matrix.length : ℤ)) := by
  have hmax : listMax (([⟨0, 0, 0⟩, ⟨1, 1, 1⟩] : List Vec3).map Vec3.x) = 1 := by
    simp [listMax]
  have hmin : listMin (([⟨0, 0, 0⟩, ⟨1, 1, 1⟩] : List Vec3).map Vec3.x) = 0 := by
    simp [listMin]
  have hmaxz : listMax (([⟨0, 0, 0⟩, ⟨1, 1, 1⟩] : List Vec3).map Vec3.z) = 1 := by
    simp [listMax]
  have hminz : listMin (([⟨0, 0, 0⟩, ⟨1, 1, 1⟩] : List Vec3).map Vec3.z) = 0 := by
    simp [listMin]
  have hmem : (⟨1, 1, 1⟩ : Vec3) ∈ ([⟨0, 0, 0⟩, ⟨1, 1, 1⟩] : List Vec3) :=
    List.mem_cons_of_mem _ (List.mem_singleton.mpr rfl)
  have hband : inHeightBand [⟨0, 0, 0⟩, ⟨1, 1, 1⟩] 1 ⟨1, 1, 1⟩ := by
    simp only [inHeightBand, hmaxz, hminz, fp_grid, SIZE]
    norm_num
  have hx : (⟨1, 1, 1⟩ : Vec3).x =
      listMax (([⟨0, 0, 0⟩, ⟨1, 1, 1⟩] : List Vec3).map Vec3.x) := by
    rw [hmax]
  have hlt : listMin (([⟨0, 0, 0⟩, ⟨1, 1, 1⟩] : List Vec3).map Vec3.x) <
      listMax (([⟨0, 0, 0⟩, ⟨1, 1, 1⟩] : List Vec3).map Vec3.x) := by
    rw [hmax, hmin]; norm_num
  exact ⟨⟨hmem, hband, hx, hlt⟩,
    (find_position_oob_spec [⟨0, 0, 0⟩, ⟨1, 1, 1⟩] ⟨1, 1, 1⟩ 1 hmem hband).1 hx hlt⟩

/-! ## Camera-placement claims -/

/-- Helper: `foldr max 0` over reals is nonnegative. -/
theorem foldr_max_zero_nonneg (l : List ℝ) : 0 ≤ l.foldr max 0 := by
  induction l with
  | nil => exact le_refl 0
  | cons x t ih => exact le_trans ih (le_max_right x _)

/-- Helper: the bounding radius returned by
`compute_object_center_and_radius` is nonnegative. -/
theorem compute_radius_nonneg (maskB : List Bool) (coords : List Vec3)
    (c : Vec3) (br : ℝ)
    (h : compute_object_center_and_radius maskB coords = .ok (c, br)) :
    0 ≤ br := by
  by_cases hany : maskB.any id
  · rw [compute_object_center_and_radius, if_pos hany] at h
    have h2 := (Prod.mk.injEq _ _ _ _).mp (Except.ok.inj h)
    rw [← h2.2]
    exact foldr_max_zero_nonneg _
  · rw [compute_object_center_and_radius, if_neg hany] at h
    exact absurd h (by simp)

/-- Helper: successful run of `test_camera_positions` with `look_outward =
False`: with a supported mode, a matching mask length, a nonempty selection
and a configured camera height, the result is `ok` and the rendered views'
eyes are exactly the generated circle positions (radius
`bounding_radius * distance_factor`, height `camera_height`), each looking at
the masked object's center. -/
theorem test_cam_ok_object (coords colors : List Vec3) (mask : List ℤ)
    (df : ℝ) (N : ℕ) (h : ℝ) (mode : String) (hl : Vec3) (obj_id : ℤ) (rho : ℝ)
    (center : Vec3) (br : ℝ)
    (hmode : mode = strOutline ∨ mode = strFull)
    (hlen : (mask.map fun v => v == obj_id).length = coords.length)
    (hany : (mask.map fun v => v == obj_id).any id = true)
    (hctr : compute_object_center_and_radius (mask.map fun v => v == obj_id)
      coords = .ok (center, br)) :
    ∃ vis, test_camera_positions coords colors mask df N (some h) mode hl obj_id
        false rho =
      .ok (vis, (camera_positions_list center (br * df) h N).map fun eye =>
        (eye, vmean (maskedCoords (mask.map fun v => v == obj_id) coords))) := by
  have hlen' : mask.length = coords.length := by simpa using hlen
  rcases hmode with hm | hm <;> subst hm
  · refine ⟨colors, ?_⟩
    simp only [test_camera_positions]
    rw [if_neg (by simp [hlen])]
    simp only [process_mask_mode, strOutline, reduceIte, hany]
    rw [hctr]
    simp only [render_object_views, hany]
    rw [if_neg (by simp [hlen])]
    simp [process_mask_mode, hany, hlen']
  · refine ⟨maskAssign (mask.map fun v => v == obj_id) colors ⟨1, 0, 0⟩, ?_⟩
    simp only [test_camera_positions]
    rw [if_neg (by simp [hlen])]
    simp only [process_mask_mode, strFull, reduceIte]
    rw [hctr]
    simp only [render_object_views, hany]
    rw [if_neg (by simp [hlen])]
    simp [process_mask_mode, hany, hlen']

/-- Helper: successful run of `test_camera_positions` with `look_outward =
True` and mode "full": the views' eyes are the circle positions around the
whole cloud's center with radius `0.5 * 0.1` and count
`outward_num_positions rho`, each looking away from the scene center. -/
theorem test_cam_ok_outward (coords colors : List Vec3) (mask : List ℤ)
    (df : ℝ) (N : ℕ) (ch : Option ℝ) (hl : Vec3) (obj_id : ℤ) (rho : ℝ)
    (hlen : (mask.map fun v => v == obj_id).length = coords.length)
    (hany : (mask.map fun v => v == obj_id).any id = true) :
    ∃ vis views, test_camera_positions coords colors mask df N ch strFull hl
        obj_id true rho = .ok (vis, views) ∧
      views = (camera_positions_list (compute_cloud_center coords) (0.5 * 0.1)
          (ch.getD (listMin (coords.map Vec3.z) + 1.5))
          (outward_num_positions rho)).map (fun eye =>
        (eye, (⟨2 * eye.x - (compute_cloud_center coords).x,
          2 * eye.y - (compute_cloud_center coords).y,
          2 * eye.z - (ch.getD (listMin (coords.map Vec3.z) + 1.5))⟩ : Vec3))) := by
  have hlen' : mask.length = coords.length := by simpa using hlen
  refine ⟨maskAssign (mask.map fun v => v == obj_id) colors ⟨1, 0, 0⟩, _, ?_, rfl⟩
  simp only [test_camera_positions]
  rw [if_neg (by simp [hlen])]
  simp only [process_mask_mode, strFull, reduceIte]
  simp only [render_object_views, hany]
  rw [if_neg (by simp [hlen])]
  simp [process_mask_mode, hany, hlen']

/-- Modelled from the spec: the pinhole relation — the horizontal field of
view (degrees) derived from a vertical field of view (degrees) and an image
aspect ratio, `2 * arctan(tan(vfov/2) * aspect)`. -/
noncomputable def pinhole_horizontal_fov (vfov_deg aspect : ℝ) : ℝ :=
  2 * Real.arctan (Real.tan (vfov_deg * Real.pi / 180 / 2) * aspect)
    * 180 / Real.pi

/-- C4: in outward mode the number of generated camera positions (one rendered
view per position) equals `ceil(360 / (horizontal_fov * (1 - overlap_ratio)))`
where `horizontal_fov` comes from the pinhole relation applied to the (code-
fixed) 90-degree vertical FOV and 1280/720 aspect ratio, for every overlap
ratio in `[0, 1)`. -/
theorem outward_count_spec (coords colors : List Vec3) (mask : List ℤ)
    (df : ℝ) (N : ℕ) (ch : Option ℝ) (hl : Vec3) (obj_id : ℤ) (rho : ℝ)
    (_h0 : 0 ≤ rho) (_h1 : rho < 1)
    (hlen : (mask.map fun v => v == obj_id).length = coords.length)
    (hany : (mask.map fun v => v == obj_id).any id = true) :
    ∃ vis views,
      test_camera_positions coords colors mask df N ch strFull hl obj_id true
        rho = .ok (vis, views) ∧
      views.length =
        Nat.ceil ((360 : ℝ) / (pinhole_horizontal_fov 90 (1280 / 720) * (1 - rho))) := by
  obtain ⟨vis, views, hok, hviews⟩ :=
    test_cam_ok_outward coords colors mask df N ch hl obj_id rho hlen hany
  refine ⟨vis, views, hok, ?_⟩
  have hfov : outward_horizontal_fov = pinhole_horizontal_fov 90 (1280 / 720) := rfl
  rw [hviews, List.length_map, camera_positions_list, List.length_map,
    List.length_range, outward_num_positions, hfov, Int.ceil_toNat]

/-- Witness for `outward_count_spec` at a concrete input. -/
theorem outward_count_spec_witness :
    ((0 : ℝ) ≤ 0.2 ∧ (0.2 : ℝ) < 1 ∧
        (([1] : List ℤ).map fun v => v == 1).length =
          ([⟨0, 0, 0⟩] : List Vec3).length ∧
        (([1] : List ℤ).map fun v => v == 1).any id = true) ∧
      (∃ vis views,
        test_camera_positions [⟨0, 0, 0⟩] [⟨0.5, 0.5, 0.5⟩] [1] 2 8 (some 1)
          strFull ⟨1, 0, 0⟩ 1 true 0.2 = .ok (vis, views) ∧
        views.length =
          Nat.ceil ((360 : ℝ) /
            (pinhole_horizontal_fov 90 (1280 / 720) * (1 - 0.2)))) :=
  ⟨⟨by norm_num, by norm_num, by decide, by decide⟩,
    outward_count_spec [⟨0, 0, 0⟩] [⟨0.5, 0.5, 0.5⟩] [1] 2 8 (some 1) ⟨1, 0, 0⟩
      1 0.2 (by norm_num) (by norm_num) (by decide) (by decide)⟩

/-- Counterexample to C1 as stated: for the single-point cloud `[(0,0,0)]`
with mask `[1]`, `distance_factor = 2`, one requested position and configured
`camera_height = 10`, the pipeline succeeds, the object's center is `(0,0,0)`
with bounding radius `0`, and the generated camera position `(0,0,10)` is at
3-D distance `10` from the object's center — not at distance
`bounding_radius * distance_factor = 0 * 2`. -/
theorem camera_distance_cex :
    test_camera_positions [⟨0, 0, 0⟩] [⟨0.5, 0.5, 0.5⟩] [1] 2 1 (some 10)
        strFull ⟨1, 0, 0⟩ 1 false 0.2 =
      .ok ([⟨1, 0, 0⟩], [(⟨0, 0, 10⟩, ⟨0, 0, 0⟩)]) ∧
    compute_object_center_and_radius [true] [⟨0, 0, 0⟩] = .ok (⟨0, 0, 0⟩, 0) ∧
    dist3 ⟨0, 0, 10⟩ ⟨0, 0, 0⟩ ≠ 0 * 2 := by
  have hctr : compute_object_center_and_radius [true] [⟨0, 0, 0⟩] =
      .ok (⟨0, 0, 0⟩, 0) := by
    simp [compute_object_center_and_radius, maskedCoords, vmean, vnorm]
  refine ⟨?_, hctr, ?_⟩
  · have hmask : (([1] : List ℤ).map fun v => v == 1) = [true] := by decide
    simp only [test_camera_positions, hmask]
    rw [if_neg (by simp)]
    simp only [process_mask_mode, strFull, reduceIte]
    rw [hctr]
    simp only [render_object_views]
    rw [if_neg (by simp)]
    simp only [process_mask_mode, strFull, reduceIte]
    simp [camera_positions_list, List.range_succ, maskAssign, maskedCoords, vmean]
  · have h1 : dist3 ⟨0, 0, 10⟩ ⟨0, 0, 0⟩ = 10 := by
      simp only [dist3, vnorm]
      rw [show ((0 : ℝ) - 0) ^ 2 + ((0 : ℝ) - 0) ^ 2 + ((10 : ℝ) - 0) ^ 2 =
        10 ^ 2 by norm_num]
      exact Real.sqrt_sq (by norm_num)
    rw [h1]
    norm_num

/-- C1 (amended): with `look_outward = False`, a supported mask mode, a mask
of matching length selecting at least one point and a configured camera
height, `test_camera_positions` renders exactly `N` views whose camera
positions sit at angles `2*pi*i/N` on the circle of radius
`bounding_radius * distance_factor` around the object's center, each at the
configured height — the stated distance from the center holds for the
horizontal (xy-plane) distance, not the 3-D distance. -/
theorem camera_positions_spec (coords colors : List Vec3) (mask : List ℤ)
    (df : ℝ) (N : ℕ) (h : ℝ) (mode : String) (hl : Vec3) (obj_id : ℤ) (rho : ℝ)
    (center : Vec3) (br : ℝ)
    (hmode : mode = strOutline ∨ mode = strFull)
    (hlen : (mask.map fun v => v == obj_id).length = coords.length)
    (hany : (mask.map fun v => v == obj_id).any id = true)
    (hctr : compute_object_center_and_radius (mask.map fun v => v == obj_id)
      coords = .ok (center, br))
    (hdf : 0 ≤ df) :
    ∃ vis views,
      test_camera_positions coords colors mask df N (some h) mode hl obj_id
          false rho = .ok (vis, views) ∧
      views.length = N ∧
      ∀ i, ∀ hi : i < views.length,
        (views.get ⟨i, hi⟩).1 =
          ⟨center.x + br * df * Real.cos (2 * Real.pi * (i : ℝ) / (N : ℝ)),
            center.y + br * df * Real.sin (2 * Real.pi * (i : ℝ) / (N : ℝ)), h⟩ ∧
        (views.get ⟨i, hi⟩).1.z = h ∧
        distXY (views.get ⟨i, hi⟩).1 center = br * df := by
  obtain ⟨vis, hok⟩ := test_cam_ok_object coords colors mask df N h mode hl
    obj_id rho center br hmode hlen hany hctr
  have hbr : 0 ≤ br := compute_radius_nonneg _ _ _ _ hctr
  refine ⟨vis, _, hok, by simp [camera_positions_list], ?_⟩
  intro i hi
  have hget : ((camera_positions_list center (br * df) h N).map fun eye =>
        (eye, vmean (maskedCoords (mask.map fun v => v == obj_id) coords))).get
        ⟨i, hi⟩ =
      ((⟨center.x + br * df * Real.cos (2 * Real.pi * (i : ℝ) / (N : ℝ)),
          center.y + br * df * Real.sin (2 * Real.pi * (i : ℝ) / (N : ℝ)), h⟩ :
          Vec3),
        vmean (maskedCoords (mask.map fun v => v == obj_id) coords)) := by
    simp [camera_positions_list]
  refine ⟨by rw [hget], by rw [hget], ?_⟩
  rw [hget]
  have hnn : 0 ≤ br * df := mul_nonneg hbr hdf
  have hsq : (center.x + br * df * Real.cos (2 * Real.pi * (i : ℝ) / (N : ℝ)) -
        center.x) ^ 2 +
      (center.y + br * df * Real.sin (2 * Real.pi * (i : ℝ) / (N : ℝ)) -
        center.y) ^ 2 = (br * df) ^ 2 := by
    calc (center.x + br * df * Real.cos (2 * Real.pi * (i : ℝ) / (N : ℝ)) -
          center.x) ^ 2 +
        (center.y + br * df * Real.sin (2 * Real.pi * (i : ℝ) / (N : ℝ)) -
          center.y) ^ 2 =
        (br * df) ^ 2 * (Real.cos (2 * Real.pi * (i : ℝ) / (N : ℝ)) ^ 2 +
          Real.sin (2 * Real.pi * (i : ℝ) / (N : ℝ)) ^ 2) := by ring
      _ = (br * df) ^ 2 := by rw [Real.cos_sq_add_sin_sq, mul_one]
  simp only [distXY]
  rw [hsq]
  exact Real.sqrt_sq hnn

/-- Witness for `camera_positions_spec` at a concrete input. -/
theorem camera_positions_spec_witness :
    ((strFull = strOutline ∨ strFull = strFull) ∧
        (([1] : List ℤ).map fun v => v == 1).length =
          ([⟨0, 0, 0⟩] : List Vec3).length ∧
        (([1] : List ℤ).map fun v => v == 1).any id = true ∧
        compute_object_center_and_radius (([1] : List ℤ).map fun v => v == 1)
            [⟨0, 0, 0⟩] = .ok (⟨0, 0, 0⟩, 0) ∧
        (0 : ℝ) ≤ 2) ∧
      (∃ vis views,
        test_camera_positions [⟨0, 0, 0⟩] [⟨0.5, 0.5, 0.5⟩] [1] 2 3 (some 10)
            strFull ⟨1, 0, 0⟩ 1 false 0.2 = .ok (vis, views) ∧
        views.length = 3 ∧
        ∀ i, ∀ hi : i < views.length,
          (views.get ⟨i, hi⟩).1 =
            ⟨(⟨0, 0, 0⟩ : Vec3).x + 0 * 2 * Real.cos (2 * Real.pi * (i : ℝ) / (3 : ℝ)),
              (⟨0, 0, 0⟩ : Vec3).y + 0 * 2 * Real.sin (2 * Real.pi * (i : ℝ) / (3 : ℝ)),
              10⟩ ∧
          (views.get ⟨i, hi⟩).1.z = 10 ∧
          distXY (views.get ⟨i, hi⟩).1 ⟨0, 0, 0⟩ = 0 * 2) := by
  have hctr : compute_object_center_and_radius (([1] : List ℤ).map fun v => v == 1)
      [⟨0, 0, 0⟩] = .ok (⟨0, 0, 0⟩, 0) := by
    have hmask : (([1] : List ℤ).map fun v => v == 1) = [true] := by decide
    rw [hmask]
    simp [compute_object_center_and_radius, maskedCoords, vmean, vnorm]
  exact ⟨⟨Or.inr rfl, by decide, by decide, hctr, by norm_num⟩,
    camera_positions_spec [⟨0, 0, 0⟩] [⟨0.5, 0.5, 0.5⟩] [1] 2 3 10 strFull
      ⟨1, 0, 0⟩ 1 0.2 ⟨0, 0, 0⟩ 0 (Or.inr rfl) (by decide) (by decide) hctr
      (by norm_num)⟩

/-! ## Verification of the largest-rectangle routine on the spec's grids -/

/-- Invariant for the hole-grid argument: the running best state has a
nonnegative area, and unless no rectangle has been recorded yet (`ans = 0`,
the initial state), the recorded rectangle avoids the hole cell `(r, c)`. -/
def RectOk (r c : ℕ) (st : RectSt) : Prop :=
  0 ≤ st.ans ∧ (st.ans = 0 ∨ ¬ rectContains st r c)

/-- `getD` of a uniform heights array. -/
theorem getD_replicate_of_lt {a : ℤ} {n j : ℕ} (h : j < n) :
    (List.replicate n a).getD j 0 = a := by
  simp [List.getD_eq_getElem?_getD, List.getElem?_replicate, h]

/-- `getD` of the dipped heights array at the dip. -/
theorem getD_dip_at {a b : ℤ} {n c : ℕ} (h : c < n) :
    ((List.replicate n a).set c b).getD c 0 = b := by
  simp [List.getD_eq_getElem?_getD, List.getElem?_set, h]

/-- `getD` of the dipped heights array away from the dip. -/
theorem getD_dip_ne {a b : ℤ} {n c t : ℕ} (h : t < n) (hne : t ≠ c) :
    ((List.replicate n a).set c b).getD t 0 = a := by
  simp [List.getD_eq_getElem?_getD, List.getElem?_set, h, hne, Ne.symm hne]

/-- A run of columns whose heights do not descend below the stack top only
pushes: folding `jStep` over `range' s k` (all of it left of `m`) with
constant height `a` on the run and a stack whose top is at most `a` leaves the
state untouched and piles the run onto the stack in reverse. -/
theorem foldl_jStep_push (heights : List ℤ) (i m : ℕ) (a : ℤ) :
    ∀ k s (stack : List ℕ) (st : RectSt), s + k ≤ m →
      (∀ j, s ≤ j → j < s + k → heights.getD j 0 = a) →
      (stack = [] ∨ heights.getD (stack.headD 0) 0 ≤ a) →
      (List.range' s k).foldl (jStep heights i m) (stack, st) =
        ((List.range' s k).reverse ++ stack, st) := by
  intro k
  induction k with
  | zero => intro s stack st _ _ _; simp
  | succ k ih =>
    intro s stack st hkm hconst htop
    rw [List.range'_succ]
    have hsm : s ≠ m := by omega
    have hstep : jStep heights i m (stack, st) s = (s :: stack, st) := by
      cases stack with
      | nil => rfl
      | cons t ts =>
        have hta : heights.getD t 0 ≤ a := by simpa using htop
        have hsa : heights.getD s 0 = a := hconst s (le_refl s) (by omega)
        have hcond : ¬(s = m ∨ heights.getD t 0 > heights.getD s 0) := by
          rw [hsa]; push_neg; exact ⟨hsm, hta⟩
        simp only [jStep, popLoop]
        rw [if_neg hcond]
    rw [List.foldl_cons, hstep, ih (s + 1) (s :: stack) st (by omega)
      (fun j hj1 hj2 => hconst j (by omega) (by omega))
      (Or.inr (le_of_eq (hconst s (le_refl s) (by omega))))]
    rw [List.reverse_cons, List.append_assoc]
    simp

/-- Popping the full descending stack `[k-1, ..., 0]` at the final column
`j = m` over constant heights `a ≥ 1`: every prefix is eventually beaten by
the final pop of column 0 with width `m`, so if the incoming best is below
`a * m` the pop chain ends exactly in the full-width rectangle
`(i, i + a - 1, 0, m - 1)` of area `a * m`. -/
theorem popLoop_const_all (heights : List ℤ) (i m : ℕ) (a : ℤ) (ha : 1 ≤ a)
    (hconst : ∀ j, j < m → heights.getD j 0 = a) :
    ∀ k st, 1 ≤ k → k ≤ m → 0 ≤ st.ans → st.ans < a * m →
      popLoop heights i m m ((List.range k).reverse) st =
        ([], ⟨a * m, (i : ℤ), (i : ℤ) + a - 1, 0, (m : ℤ) - 1⟩) := by
  intro k
  induction k with
  | zero => intro st h1 _ _ _; omega
  | succ k ih =>
    intro st _ hkm h0 hlt
    rcases Nat.eq_zero_or_pos k with hk0 | hkpos
    · subst hk0
      have hm : (0 : ℕ) < m := by omega
      have hget : heights.getD 0 0 = a := hconst 0 hm
      simp only [List.range_succ, List.range_zero, List.nil_append,
        List.reverse_cons, List.reverse_nil]
      simp only [popLoop, candAt, restW, restM1, hget, reduceIte, true_or,
        if_pos]
      rw [if_pos (by simpa using hlt)]
    · have hsplit : (List.range (k + 1)).reverse =
          k :: (List.range k).reverse := by
        rw [List.range_succ, List.reverse_append]
        simp
      rw [hsplit]
      have hkm' : k < m := by omega
      have hget : heights.getD k 0 = a := hconst k hkm'
      have hrest : (List.range k).reverse =
          (k - 1) :: (List.range (k - 1)).reverse := by
        conv_lhs => rw [show k = (k - 1) + 1 by omega]
        rw [List.range_succ, List.reverse_append]
        simp
      simp only [popLoop, true_or, if_pos]
      rw [hrest]
      simp only [candAt, restW, restM1, hget, ← hrest]
      have hcast : ((k - 1 : ℕ) : ℤ) = (k : ℤ) - 1 := by omega
      set w : ℤ := (m : ℤ) - ((k - 1 : ℕ) : ℤ) - 1 with hw
      have hwm : a * w < a * m := by
        have hwlt : w < (m : ℤ) := by omega
        have hwpos : 0 ≤ w := by omega
        nlinarith
      by_cases hfire : a * w > st.ans
      · rw [if_pos (by simpa using hfire)]
        exact ih _ (by omega) (by omega)
          (by simpa using le_trans h0 (le_of_lt hfire))
          (by simpa using hwm)
      · rw [if_neg (by simpa using hfire)]
        exact ih _ (by omega) (by omega) h0 hlt

/-- Over all-zero heights no pop can improve the best (every candidate has
area `0`), so the chain empties the stack and leaves the state unchanged. -/
theorem popLoop_const_zero (heights : List ℤ) (i m : ℕ)
    (hconst : ∀ j, j < m → heights.getD j 0 = 0) :
    ∀ (stack : List ℕ) (st : RectSt), (∀ t ∈ stack, t < m) → 0 ≤ st.ans →
      popLoop heights i m m stack st = ([], st) := by
  intro stack
  induction stack with
  | nil => intro st _ _; rfl
  | cons t ts ih =>
    intro st hmem h0
    have hget : heights.getD t 0 = 0 := hconst t (hmem t (List.mem_cons_self t ts))
    simp only [popLoop, true_or, if_pos, candAt, hget, zero_mul]
    rw [if_neg (by omega)]
    exact ih st (fun x hx => hmem x (List.mem_cons_of_mem t hx)) h0

/-- The stack pass over a constant row of height `a ≥ 1`: the final state is
the full-width rectangle of this row band. -/
theorem stackPass_const (heights : List ℤ) (i m : ℕ) (a : ℤ) (ha : 1 ≤ a)
    (hm : 1 ≤ m) (hconst : ∀ j, j < m → heights.getD j 0 = a) (st : RectSt)
    (h0 : 0 ≤ st.ans) (hlt : st.ans < a * m) :
    stackPass heights i m st =
      ⟨a * m, (i : ℤ), (i : ℤ) + a - 1, 0, (m : ℤ) - 1⟩ := by
  rw [stackPass, List.range_succ, List.foldl_append, List.range_eq_range',
    foldl_jStep_push heights i m a m 0 [] st (by omega)
      (fun j _ hj => hconst j (by omega)) (Or.inl rfl)]
  simp only [List.append_nil, List.foldl_cons, List.foldl_nil, jStep]
  rw [← List.range_eq_range',
    popLoop_const_all heights i m a ha hconst m st hm (le_refl m) h0 hlt]

/-- The stack pass over an all-zero row leaves the state unchanged. -/
theorem stackPass_zero (heights : List ℤ) (i m : ℕ)
    (hconst : ∀ j, j < m → heights.getD j 0 = 0) (st : RectSt)
    (h0 : 0 ≤ st.ans) :
    stackPass heights i m st = st := by
  rw [stackPass, List.range_succ, List.foldl_append, List.range_eq_range',
    foldl_jStep_push heights i m 0 m 0 [] st (by omega)
      (fun j _ hj => hconst j (by omega)) (Or.inl rfl)]
  simp only [List.append_nil, List.foldl_cons, List.foldl_nil, jStep]
  rw [← List.range_eq_range', popLoop_const_zero heights i m hconst
    ((List.range m).reverse) st
    (fun t ht => by simpa using List.mem_range.mp (List.mem_reverse.mp ht)) h0]

/-- A full pop chain at a column `j ≤ c` preserves `RectOk`: every candidate
recorded here spans columns ending at `j - 1 < c`, hence avoids the hole.
The pop condition is supplied for every stack element, so the stack empties;
the best never decreases. -/
theorem popLoop_excl_left (heights : List ℤ) (i j m r c : ℕ)
    (hj : (j : ℤ) - 1 < (c : ℤ)) :
    ∀ (stack : List ℕ) (st : RectSt),
      (∀ t ∈ stack, j = m ∨ heights.getD t 0 > heights.getD j 0) →
      RectOk r c st →
      ∃ st', popLoop heights i j m stack st = ([], st') ∧ RectOk r c st' ∧
        st.ans ≤ st'.ans := by
  intro stack
  induction stack with
  | nil => intro st _ hok; exact ⟨st, rfl, hok, le_refl _⟩
  | cons t ts ih =>
    intro st hpop hok
    have hcond := hpop t (List.mem_cons_self t ts)
    simp only [popLoop, hcond, if_pos]
    set cand := candAt heights i j t ts with hcand
    by_cases hfire : cand.ans > st.ans
    · have hok' : RectOk r c cand := by
        refine ⟨le_trans hok.1 (le_of_lt hfire), Or.inr ?_⟩
        intro hcont
        have hm2 : (c : ℤ) ≤ cand.m2 := hcont.2.2.2
        have : cand.m2 = (j : ℤ) - 1 := rfl
        omega
      obtain ⟨st', heq, hok'', hle⟩ := ih cand
        (fun x hx => hpop x (List.mem_cons_of_mem t hx)) hok'
      rw [if_pos hfire]
      exact ⟨st', heq, hok'', le_trans (le_of_lt hfire) hle⟩
    · obtain ⟨st', heq, hok'', hle⟩ := ih st
        (fun x hx => hpop x (List.mem_cons_of_mem t hx)) hok
      rw [if_neg hfire]
      exact ⟨st', heq, hok'', hle⟩

/-- The final pop chain (`j = m`) on a stack of the form `S ++ [c]` with every
element of `S` beyond the hole column: candidates popped from `S` start at
column `≥ c + 1`, and the last candidate (column `c` itself, height `b`) spans
rows ending at `i + b - 1 < r`; every recorded rectangle avoids the hole. -/
theorem popLoop_excl_right (heights : List ℤ) (i m r c : ℕ) (b : ℤ)
    (hb : heights.getD c 0 = b) (hrow : (i : ℤ) + b - 1 < (r : ℤ)) :
    ∀ (S : List ℕ) (st : RectSt), (∀ t ∈ S, c < t) → RectOk r c st →
      ∃ st', popLoop heights i m m (S ++ [c]) st = ([], st') ∧ RectOk r c st' ∧
        st.ans ≤ st'.ans := by
  intro S
  induction S with
  | nil =>
    intro st _ hok
    simp only [List.nil_append, popLoop, true_or, if_pos]
    set cand := candAt heights i m c [] with hcand
    by_cases hfire : cand.ans > st.ans
    · rw [if_pos hfire]
      refine ⟨cand, rfl, ⟨le_trans hok.1 (le_of_lt hfire), Or.inr ?_⟩,
        le_of_lt hfire⟩
      intro hcont
      have hn2 : (r : ℤ) ≤ cand.n2 := hcont.2.1
      have : cand.n2 = (i : ℤ) + heights.getD c 0 - 1 := rfl
      omega
    · rw [if_neg hfire]
      exact ⟨st, rfl, hok, le_refl _⟩
  | cons t S' ih =>
    intro st hgt hok
    have hct : c < t := hgt t (List.mem_cons_self t S')
    simp only [List.cons_append, popLoop, true_or, if_pos, List.append_eq]
    set cand := candAt heights i m t (S' ++ [c]) with hcand
    have hm1 : (c : ℤ) < cand.m1 := by
      have : cand.m1 = restM1 (S' ++ [c]) := rfl
      rw [this]
      cases S' with
      | nil => simp only [List.nil_append, restM1]; omega
      | cons t' S'' =>
        have hct' : c < t' := hgt t' (List.mem_cons_of_mem t (List.mem_cons_self t' S''))
        simp only [List.cons_append, restM1]
        omega
    by_cases hfire : cand.ans > st.ans
    · have hok' : RectOk r c cand := by
        refine ⟨le_trans hok.1 (le_of_lt hfire), Or.inr ?_⟩
        intro hcont
        have := hcont.2.2.1
        omega
      obtain ⟨st', heq, hok'', hle⟩ := ih cand
        (fun x hx => hgt x (List.mem_cons_of_mem t hx)) hok'
      rw [if_pos hfire]
      exact ⟨st', heq, hok'', le_trans (le_of_lt hfire) hle⟩
    · obtain ⟨st', heq, hok'', hle⟩ := ih st
        (fun x hx => hgt x (List.mem_cons_of_mem t hx)) hok
      rw [if_neg hfire]
      exact ⟨st', heq, hok'', hle⟩

/-- The stack pass over a dipped row — heights `a` everywhere except `b < a`
at the hole column `c`, where the band below the dip ends above row `r`
(`i + b - 1 < r`) — preserves `RectOk` and never decreases the best area:
columns left of the dip are flushed at `j = c` (candidates end at column
`c - 1`), the rest at `j = m` (candidates from beyond the dip start at column
`≥ c + 1`; the final full-width candidate has height `b`). -/
theorem stackPass_dip_excl (i m r c : ℕ) (a b : ℤ)
    (hcm : c < m) (hba : b < a) (hrow : (i : ℤ) + b - 1 < (r : ℤ))
    (st : RectSt) (hok : RectOk r c st) :
    RectOk r c (stackPass ((List.replicate m a).set c b) i m st) ∧
      st.ans ≤ (stackPass ((List.replicate m a).set c b) i m st).ans := by
  set heights := (List.replicate m a).set c b with hheights
  have hgetc : heights.getD c 0 = b := getD_dip_at hcm
  have hgeta : ∀ j, j < m → j ≠ c → heights.getD j 0 = a := by
    intro j h1 h2; exact getD_dip_ne h1 h2
  have hsplit : List.range (m + 1) =
      List.range' 0 c ++ (c :: (List.range' (c + 1) (m - c - 1) ++ [m])) := by
    have h1 : List.range' 0 (m + 1) =
        List.range' 0 c ++ List.range' c (m + 1 - c) := by
      have h := List.range'_append_1 0 c (m + 1 - c)
      rw [show m + 1 - c + c = m + 1 from by omega] at h
      simpa using h.symm
    have h2 : List.range' c (m + 1 - c) = c :: List.range' (c + 1) (m - c) := by
      rw [show m + 1 - c = (m - c) + 1 from by omega, List.range'_succ]
    have h3 : List.range' (c + 1) (m - c) =
        List.range' (c + 1) (m - c - 1) ++ [m] := by
      rw [show m - c = (m - c - 1) + 1 from by omega, List.range'_1_concat,
        show c + 1 + (m - c - 1) = m from by omega]
      norm_num
    rw [List.range_eq_range', h1, h2, h3]
  obtain ⟨st₁, heq₁, hok₁, hle₁⟩ := popLoop_excl_left heights i c m r c
    (by omega) ((List.range' 0 c).reverse) st
    (fun t ht => Or.inr (by
      have htc : t < c := by
        have := (List.mem_range'_1.mp (List.mem_reverse.mp ht)).2
        omega
      rw [hgeta t (by omega) (by omega), hgetc]
      exact hba)) hok
  obtain ⟨st₂, heq₂, hok₂, hle₂⟩ := popLoop_excl_right heights i m r c b hgetc
    hrow ((List.range' (c + 1) (m - c - 1)).reverse) st₁
    (fun t ht => by
      have := (List.mem_range'_1.mp (List.mem_reverse.mp ht)).1
      omega) hok₁
  have hstep1 : jStep heights i m ((List.range' 0 c).reverse, st) c =
      ([c], st₁) := by
    simp only [jStep]
    rw [heq₁]
  have hstep2 : jStep heights i m
      ((List.range' (c + 1) (m - c - 1)).reverse ++ [c], st₁) m = ([m], st₂) := by
    simp only [jStep]
    rw [heq₂]
  have hfinal : stackPass heights i m st = st₂ := by
    rw [stackPass, hsplit, List.foldl_append,
      foldl_jStep_push heights i m a c 0 [] st (by omega)
        (fun j h1 h2 => hgeta j (by omega) (by omega)) (Or.inl rfl),
      List.append_nil, List.foldl_cons, hstep1, List.foldl_append,
      foldl_jStep_push heights i m a (m - c - 1) (c + 1) [c] st₁ (by omega)
        (fun j h1 h2 => hgeta j (by omega) (by omega))
        (Or.inr (by
          show heights.getD c 0 ≤ a
          rw [hgetc]; exact le_of_lt hba)),
      List.foldl_cons, List.foldl_nil, hstep2]
  rw [hfinal]
  exact ⟨hok₂, le_trans hle₁ hle₂⟩

/-- Histogram update over an all-`one` row on uniform heights. -/
theorem updateHeights_rep_rep (isOne : α → Bool) (one : α)
    (hone : isOne one = true) (C : ℕ) (v : ℤ) :
    updateHeights isOne (List.replicate C one) (List.replicate C v) =
      List.replicate C (v + 1) := by
  induction C with
  | zero => rfl
  | succ C ih => simp [List.replicate_succ, updateHeights, hone]

/-- Histogram update over an all-`zero` row resets uniform heights. -/
theorem updateHeights_zero_rep (isOne : α → Bool) (zero : α)
    (hzero : isOne zero = false) (C : ℕ) (v : ℤ) :
    updateHeights isOne (List.replicate C zero) (List.replicate C v) =
      List.replicate C 0 := by
  induction C with
  | zero => rfl
  | succ C ih => simp [List.replicate_succ, updateHeights, hzero]

/-- Histogram update over the hole row on uniform heights: all columns grow
except the hole column, which resets. -/
theorem updateHeights_hole_rep (isOne : α → Bool) (one zero : α)
    (hone : isOne one = true) (hzero : isOne zero = false) (C : ℕ) :
    ∀ (c : ℕ) (v : ℤ),
      updateHeights isOne ((List.replicate C one).set c zero)
        (List.replicate C v) = (List.replicate C (v + 1)).set c 0 := by
  induction C with
  | zero => intro c v; rfl
  | succ C ih =>
    intro c v
    cases c with
    | zero => simp [List.replicate_succ, updateHeights, hone, hzero,
        updateHeights_rep_rep isOne one hone]
    | succ c => simp [List.replicate_succ, updateHeights, hone] at ih ⊢; exact ih c v

/-- Histogram update over an all-`one` row on dipped heights: the dip grows
along with the rest. -/
theorem updateHeights_rep_dip (isOne : α → Bool) (one : α)
    (hone : isOne one = true) (C : ℕ) :
    ∀ (c : ℕ) (v b : ℤ),
      updateHeights isOne (List.replicate C one) ((List.replicate C v).set c b) =
        (List.replicate C (v + 1)).set c (b + 1) := by
  induction C with
  | zero => intro c v b; rfl
  | succ C ih =>
    intro c v b
    cases c with
    | zero => simp [List.replicate_succ, updateHeights, hone,
        updateHeights_rep_rep isOne one hone]
    | succ c => simp [List.replicate_succ, updateHeights, hone] at ih ⊢; exact ih c v b

/-- Folding the outer loop over `k ≥ 1` all-`one` rows with indices
`s+k-1, ..., s` (processed top index first, as the reversed enumeration
does), entering with uniform heights `h0 ≥ 0` and a best below `(h0+1)*C`:
every row's full-width band strictly improves the best, so the final state is
the full band of all `k` rows plus the `h0` rows below, starting at row `s`. -/
theorem foldl_rows_ones (isOne : α → Bool) (one : α) (hone : isOne one = true)
    (C : ℕ) (hC : 1 ≤ C) :
    ∀ k s (h0 : ℤ) (st : RectSt), 1 ≤ k → 0 ≤ h0 → 0 ≤ st.ans →
      st.ans < (h0 + 1) * C →
      (((List.range' s k).reverse).map fun i => (i, List.replicate C one)).foldl
          (rowStep isOne C) (List.replicate C h0, st) =
        (List.replicate C (h0 + k),
          ⟨(h0 + k) * C, (s : ℤ), (s : ℤ) + (h0 + k) - 1, 0, (C : ℤ) - 1⟩) := by
  intro k
  induction k with
  | zero => intro s h0 st h1; omega
  | succ k ih =>
    intro s h0 st _ hh0 h0st hlt
    have hrev : (List.range' s (k + 1)).reverse =
        (s + k) :: (List.range' s k).reverse := by
      rw [List.range'_1_concat, List.reverse_append]
      simp
    rw [hrev, List.map_cons, List.foldl_cons]
    have hstep : rowStep isOne C (List.replicate C h0, st)
        (s + k, List.replicate C one) =
        (List.replicate C (h0 + 1),
          ⟨(h0 + 1) * C, ((s + k : ℕ) : ℤ), ((s + k : ℕ) : ℤ) + (h0 + 1) - 1, 0,
            (C : ℤ) - 1⟩) := by
      simp only [rowStep, updateHeights_rep_rep isOne one hone]
      rw [stackPass_const (List.replicate C (h0 + 1)) (s + k) C (h0 + 1)
        (by omega) hC (fun j hj => getD_replicate_of_lt hj) st h0st hlt]
    rw [hstep]
    rcases Nat.eq_zero_or_pos k with hk0 | hkpos
    · subst hk0
      simp only [List.range'_zero, List.reverse_nil, List.map_nil,
        List.foldl_nil]
      have : h0 + ((1 : ℕ) : ℤ) = h0 + 1 := by push_cast; ring
      rw [this]
      push_cast
      ring_nf
    · have hC' : (0 : ℤ) < (C : ℤ) := by exact_mod_cast hC
      rw [ih s (h0 + 1) _ hkpos (by omega) (by positivity)
        (by show (h0 + 1) * (C : ℤ) < (h0 + 1 + 1) * (C : ℤ); nlinarith)]
      have h1 : h0 + 1 + (k : ℤ) = h0 + ((k + 1 : ℕ) : ℤ) := by push_cast; ring
      rw [h1]

/-- Folding the outer loop over `k` all-`zero` rows: heights stay zero and
the state never changes. -/
theorem foldl_rows_zeros (isOne : α → Bool) (zero : α)
    (hzero : isOne zero = false) (C : ℕ) :
    ∀ k (st : RectSt), 0 ≤ st.ans →
      (((List.range' 0 k).reverse).map fun i => (i, List.replicate C zero)).foldl
          (rowStep isOne C) (List.replicate C 0, st) =
        (List.replicate C 0, st) := by
  intro k
  induction k with
  | zero => intro st _; rfl
  | succ k ih =>
    intro st h0
    have hrev : (List.range' 0 (k + 1)).reverse =
        k :: (List.range' 0 k).reverse := by
      rw [List.range'_1_concat, List.reverse_append]
      simp
    rw [hrev, List.map_cons, List.foldl_cons]
    have hstep : rowStep isOne C (List.replicate C 0, st)
        (k, List.replicate C zero) = (List.replicate C 0, st) := by
      simp only [rowStep, updateHeights_zero_rep isOne zero hzero]
      rw [stackPass_zero (List.replicate C 0) k C
        (fun j hj => getD_replicate_of_lt hj) st h0]
    rw [hstep, ih st h0]

/-- Folding the outer loop over the `k ≤ r` all-`one` rows above the hole row
(indices `k-1, ..., 0`), entering with the dipped heights left by the hole
row: `RectOk` is preserved and the best never decreases. -/
theorem foldl_rows_dip (isOne : α → Bool) (one : α) (hone : isOne one = true)
    (C R r c : ℕ) (hc : c < C) (hrR : r < R) :
    ∀ k, k ≤ r → ∀ st : RectSt, RectOk r c st →
      ∃ p : List ℤ × RectSt,
        (((List.range' 0 k).reverse).map fun i => (i, List.replicate C one)).foldl
            (rowStep isOne C)
            ((List.replicate C ((R : ℤ) - (k : ℤ))).set c ((r : ℤ) - (k : ℤ)), st) =
          p ∧ RectOk r c p.2 ∧ st.ans ≤ p.2.ans := by
  intro k
  induction k with
  | zero =>
    intro _ st hok
    exact ⟨((List.replicate C ((R : ℤ) - 0)).set c ((r : ℤ) - 0), st), rfl, hok,
      le_refl _⟩
  | succ k ih =>
    intro hkr st hok
    have hrev : (List.range' 0 (k + 1)).reverse =
        k :: (List.range' 0 k).reverse := by
      rw [List.range'_1_concat, List.reverse_append]
      simp
    rw [hrev, List.map_cons, List.foldl_cons]
    have harith1 : (R : ℤ) - ((k + 1 : ℕ) : ℤ) + 1 = (R : ℤ) - (k : ℤ) := by
      push_cast; ring
    have harith2 : (r : ℤ) - ((k + 1 : ℕ) : ℤ) + 1 = (r : ℤ) - (k : ℤ) := by
      push_cast; ring
    have hstep : rowStep isOne C
        ((List.replicate C ((R : ℤ) - ((k + 1 : ℕ) : ℤ))).set c
          ((r : ℤ) - ((k + 1 : ℕ) : ℤ)), st) (k, List.replicate C one) =
        ((List.replicate C ((R : ℤ) - (k : ℤ))).set c ((r : ℤ) - (k : ℤ)),
          stackPass ((List.replicate C ((R : ℤ) - (k : ℤ))).set c
            ((r : ℤ) - (k : ℤ))) k C st) := by
      simp only [rowStep, updateHeights_rep_dip isOne one hone, harith1, harith2]
    rw [hstep]
    have hdip := stackPass_dip_excl k C r c ((R : ℤ) - (k : ℤ))
      ((r : ℤ) - (k : ℤ)) hc (by omega) (by omega) st hok
    obtain ⟨p, heq, hok', hle⟩ := ih (by omega) _ hdip.1
    exact ⟨p, heq, hok', le_trans hdip.2 hle⟩

/-- The reversed enumeration of a grid built as a map over row indices. -/
theorem enum_reverse_map (f : ℕ → List α) (R : ℕ) :
    ((List.range R).map f).enum.reverse =
      ((List.range R).reverse).map fun i => (i, f i) := by
  rw [List.enum_eq_zip_range]
  have hlen : ((List.range R).map f).length = R := by simp
  rw [hlen]
  have hzip : (List.range R).zip ((List.range R).map f) =
      (List.range R).map fun i => (i, f i) := by
    nth_rewrite 1 [show List.range R = (List.range R).map id from
      (List.map_id _).symm]
    rw [List.zip_map']
    simp
  rw [hzip, List.map_reverse]

/-- `uniformGrid` as a map over row indices. -/
theorem uniformGrid_eq_map (x : α) (R C : ℕ) :
    uniformGrid x R C = (List.range R).map fun _ => List.replicate C x := by
  rw [uniformGrid, List.map_const']
  simp

/-- The width taken by the algorithm on a uniform grid. -/
theorem uniformGrid_headD (x : α) (R C : ℕ) (hR : 1 ≤ R) :
    ((uniformGrid x R C).headD []).length = C := by
  obtain ⟨R', rfl⟩ : ∃ R', R = R' + 1 := ⟨R - 1, by omega⟩
  simp [uniformGrid, List.replicate_succ]

/-- The width taken by the algorithm on a hole grid. -/
theorem holeGrid_headD (one zero : α) (R C r c : ℕ) (hR : 1 ≤ R) :
    ((holeGrid one zero R C r c).headD []).length = C := by
  obtain ⟨R', rfl⟩ : ∃ R', R = R' + 1 := ⟨R - 1, by omega⟩
  rw [holeGrid, List.range_succ_eq_map]
  by_cases h0 : (0 : ℕ) = r <;> simp [h0]

/-- The algorithm on an all-`one` grid returns the whole grid with area
`R * C`. -/
theorem maximalRectangleCore_ones (isOne : α → Bool) (one : α)
    (hone : isOne one = true) (R C : ℕ) (hR : 1 ≤ R) (hC : 1 ≤ C) :
    maximalRectangleCore isOne (uniformGrid one R C) =
      ⟨(R : ℤ) * C, 0, (R : ℤ) - 1, 0, (C : ℤ) - 1⟩ := by
  rw [maximalRectangleCore, uniformGrid_headD one R C hR]
  conv_lhs => rw [uniformGrid_eq_map]
  rw [enum_reverse_map, List.range_eq_range']
  have := foldl_rows_ones isOne one hone C hC R 0 0 ⟨0, 0, 0, 0, 0⟩ hR
    (le_refl 0) (le_refl 0) (by
      show (0 : ℤ) < (0 + 1) * (C : ℤ)
      have : (0 : ℤ) < (C : ℤ) := by exact_mod_cast hC
      linarith)
  rw [this]
  norm_num

/-- The algorithm on an all-`zero` grid returns the initial state: area 0. -/
theorem maximalRectangleCore_zeros (isOne : α → Bool) (zero : α)
    (hzero : isOne zero = false) (R C : ℕ) (hR : 1 ≤ R) :
    maximalRectangleCore isOne (uniformGrid zero R C) = ⟨0, 0, 0, 0, 0⟩ := by
  rw [maximalRectangleCore, uniformGrid_headD zero R C hR]
  conv_lhs => rw [uniformGrid_eq_map]
  rw [enum_reverse_map, List.range_eq_range']
  rw [foldl_rows_zeros isOne zero hzero C R ⟨0, 0, 0, 0, 0⟩ (le_refl 0)]

/-- The algorithm on a grid of `one`s with a single `zero` at interior cell
`(r, c)` reports a rectangle that avoids `(r, c)`: the rows below the hole
row set a positive best whose band avoids row `r`; the hole row and the rows
above it only record candidates that stay left, right, or above the hole. -/
theorem maximalRectangleCore_hole (isOne : α → Bool) (one zero : α)
    (hone : isOne one = true) (hzero : isOne zero = false)
    (R C r c : ℕ) (hr1 : 1 ≤ r) (hr2 : r + 2 ≤ R) (hc1 : 1 ≤ c)
    (hc2 : c + 2 ≤ C) :
    ¬ rectContains (maximalRectangleCore isOne (holeGrid one zero R C r c)) r c := by
  have hC : 1 ≤ C := by omega
  have hcC : c < C := by omega
  rw [maximalRectangleCore, holeGrid_headD one zero R C r c (by omega), holeGrid,
    enum_reverse_map]
  have hsplit : (List.range R).reverse =
      (List.range' (r + 1) (R - r - 1)).reverse ++
        (r :: (List.range' 0 r).reverse) := by
    have h1 : List.range' 0 R =
        List.range' 0 (r + 1) ++ List.range' (r + 1) (R - r - 1) := by
      have h := List.range'_append_1 0 (r + 1) (R - r - 1)
      rw [show R - r - 1 + (r + 1) = R from by omega] at h
      simpa using h.symm
    have h2 : List.range' 0 (r + 1) = List.range' 0 r ++ [r] := by
      have h := List.range'_1_concat 0 r
      simpa using h
    rw [List.range_eq_range', h1, h2, List.reverse_append, List.reverse_append]
    simp
  rw [hsplit, List.map_append, List.map_cons, List.foldl_append, List.foldl_cons]
  have hmapA : ((List.range' (r + 1) (R - r - 1)).reverse).map
      (fun i => (i, if i = r then (List.replicate C one).set c zero
        else List.replicate C one)) =
      ((List.range' (r + 1) (R - r - 1)).reverse).map
        (fun i => (i, List.replicate C one)) := by
    apply List.map_congr_left
    intro i hi
    have : r + 1 ≤ i := (List.mem_range'_1.mp (List.mem_reverse.mp hi)).1
    rw [if_neg (by omega)]
  have hmapB : ((List.range' 0 r).reverse).map
      (fun i => (i, if i = r then (List.replicate C one).set c zero
        else List.replicate C one)) =
      ((List.range' 0 r).reverse).map (fun i => (i, List.replicate C one)) := by
    apply List.map_congr_left
    intro i hi
    have := (List.mem_range'_1.mp (List.mem_reverse.mp hi)).2
    rw [if_neg (by omega)]
  rw [hmapA]
  rw [show (List.replicate C (0 : ℤ)) =
    (List.replicate C ((0 : ℤ))) from rfl]
  rw [foldl_rows_ones isOne one hone C hC (R - r - 1) (r + 1) 0 ⟨0, 0, 0, 0, 0⟩
    (by omega) (le_refl 0) (le_refl 0) (by
      show (0 : ℤ) < (0 + 1) * (C : ℤ)
      have : (0 : ℤ) < (C : ℤ) := by exact_mod_cast hC
      linarith)]
  set st₁ : RectSt := ⟨(0 + ((R - r - 1 : ℕ) : ℤ)) * C, ((r + 1 : ℕ) : ℤ),
    ((r + 1 : ℕ) : ℤ) + (0 + ((R - r - 1 : ℕ) : ℤ)) - 1, 0, (C : ℤ) - 1⟩
    with hst₁
  have hstep : rowStep isOne C
      (List.replicate C (0 + ((R - r - 1 : ℕ) : ℤ)), st₁)
      (r, (List.replicate C one).set c zero) =
      ((List.replicate C ((R : ℤ) - (r : ℤ))).set c 0,
        stackPass ((List.replicate C ((R : ℤ) - (r : ℤ))).set c 0) r C st₁) := by
    simp only [rowStep, updateHeights_hole_rep isOne one zero hone hzero]
    rw [show (0 : ℤ) + ((R - r - 1 : ℕ) : ℤ) + 1 = (R : ℤ) - (r : ℤ) from by
      omega]
  rw [if_pos rfl, hstep]
  have hok₁ : RectOk r c st₁ := by
    constructor
    · show 0 ≤ (0 + ((R - r - 1 : ℕ) : ℤ)) * C
      positivity
    · refine Or.inr fun hcont => ?_
      have hn1 : st₁.n1 ≤ (r : ℤ) := hcont.1
      rw [hst₁] at hn1
      simp only at hn1
      omega
  have hdip := stackPass_dip_excl r C r c ((R : ℤ) - (r : ℤ)) 0 hcC (by omega)
    (by omega) st₁ hok₁
  set st₂ := stackPass ((List.replicate C ((R : ℤ) - (r : ℤ))).set c 0) r C st₁
    with hst₂
  rw [hmapB]
  have hfold := foldl_rows_dip isOne one hone C R r c hcC (by omega) r
    (le_refl r) st₂ hdip.1
  rw [sub_self] at hfold
  obtain ⟨p, heq, hokp, hlep⟩ := hfold
  rw [heq]
  have hans : 1 ≤ p.2.ans := by
    have h1 : ((R - r - 1 : ℕ) : ℤ) * C ≤ st₁.ans := by
      rw [hst₁]
      show ((R - r - 1 : ℕ) : ℤ) * C ≤ (0 + ((R - r - 1 : ℕ) : ℤ)) * C
      rw [zero_add]
    have hC' : (1 : ℤ) ≤ (C : ℤ) := by exact_mod_cast hC
    have hRr : (1 : ℤ) ≤ ((R - r - 1 : ℕ) : ℤ) := by omega
    have : (1 : ℤ) ≤ ((R - r - 1 : ℕ) : ℤ) * C := by nlinarith
    have := le_trans (le_trans this h1) (le_trans hdip.2 hlep)
    omega
  rcases hokp.2 with h0 | hnc
  · omega
  · exact hnc

/-- C2: the largest-rectangle routine, in both of its copies (`voxelizer.py`
on `0/1` integers and `max_submatrix_getting.py` on `"0"/"1"` strings), on an
all-1s `R x C` grid reports the whole grid (rows `0..R-1`, columns `0..C-1`)
with area `R * C`; on an all-0s grid it reports area `0`; and on an all-1s
grid with a single isolated (interior) `0`, the reported rectangle excludes
the cell containing that `0`. -/
theorem maximalRectangle_grid_spec (R C r c : ℕ) (hR : 1 ≤ R) (hC : 1 ≤ C) :
    (maximalRectangleMS (uniformGrid "1" R C) =
        ((R : ℤ) * C, (0, (R : ℤ) - 1, 0, (C : ℤ) - 1)) ∧
      maximalRectangle (uniformGrid (1 : ℤ) R C) =
        (0, (R : ℤ) - 1, 0, (C : ℤ) - 1) ∧
      (maximalRectangleCore (fun a : ℤ => a == 1) (uniformGrid (1 : ℤ) R C)).ans =
        (R : ℤ) * C) ∧
    ((maximalRectangleMS (uniformGrid "0" R C)).1 = 0 ∧
      (maximalRectangleCore (fun a : ℤ => a == 1) (uniformGrid (0 : ℤ) R C)).ans =
        0) ∧
    (1 ≤ r → r + 2 ≤ R → 1 ≤ c → c + 2 ≤ C →
      ¬ rectContains (maximalRectangleCore (fun a : ℤ => a == 1)
          (holeGrid (1 : ℤ) 0 R C r c)) r c ∧
      ¬ rectContains (maximalRectangleCore (fun s : String => s == "1")
          (holeGrid "1" "0" R C r c)) r c) := by
  refine ⟨⟨?_, ?_, ?_⟩, ⟨?_, ?_⟩, fun h1 h2 h3 h4 => ⟨?_, ?_⟩⟩
  · simp only [maximalRectangleMS,
      maximalRectangleCore_ones (fun s : String => s == "1") "1" (by decide)
        R C hR hC]
  · simp only [maximalRectangle,
      maximalRectangleCore_ones (fun a : ℤ => a == 1) 1 (by decide) R C hR hC]
  · rw [maximalRectangleCore_ones (fun a : ℤ => a == 1) 1 (by decide) R C hR hC]
  · simp only [maximalRectangleMS,
      maximalRectangleCore_zeros (fun s : String => s == "1") "0" (by decide)
        R C hR]
  · rw [maximalRectangleCore_zeros (fun a : ℤ => a == 1) 0 (by decide) R C hR]
  · exact maximalRectangleCore_hole (fun a : ℤ => a == 1) 1 0 (by decide)
      (by decide) R C r c h1 h2 h3 h4
  · exact maximalRectangleCore_hole (fun s : String => s == "1") "1" "0"
      (by decide) (by decide) R C r c h1 h2 h3 h4

/-- Witness for `maximalRectangle_grid_spec` on the concrete 3 x 3 grids with
the hole at the center cell `(1, 1)`. -/
theorem maximalRectangle_grid_spec_witness :
    maximalRectangle (uniformGrid (1 : ℤ) 3 3) = (0, 2, 0, 2) ∧
    (maximalRectangleMS (uniformGrid "1" 3 3)).1 = 9 ∧
    (maximalRectangleMS (uniformGrid "0" 3 3)).1 = 0 ∧
    ¬ rectContains (maximalRectangleCore (fun a : ℤ => a == 1)
        (holeGrid (1 : ℤ) 0 3 3 1 1)) 1 1 := by
  have h := maximalRectangle_grid_spec 3 3 1 1 (by norm_num) (by norm_num)
  refine ⟨?_, ?_, h.2.1.1, (h.2.2 (by norm_num) (by norm_num) (by norm_num)
    (by norm_num)).1⟩
  · rw [h.1.2.1]
    norm_num
  · rw [h.1.1]
    norm_num
